import Mathlib

/-!
Verification of the caching DNS forwarding proxy (caching_dns.py, dns_task.py)
against its natural-language specification.

Shallow embedding conventions:
* Timestamps and durations are natural numbers measured in milliseconds
  (the finest unit the source manipulates: line 94 builds a
  datetime.timedelta from a count of milliseconds).
* Raw datagrams are modelled as lists of naturals (one per byte,
  values unconstrained since only structure matters here).
* Python dictionaries become association lists in insertion order;
  dict.setdefault, item assignment, item lookup and del are modelled
  by explicit functions below with exactly the dictionary semantics
  the source relies on (del raises KeyError on an absent key, lookup
  raises KeyError, setdefault stores only when the key is absent).
* Fallible Python code is modelled with Except over an inductive type
  of the exception classes the source distinguishes.
* External collaborators (dnslib wire codec, pickle, sockets) are
  modelled as explicit data or as parameters, mirroring the behaviour
  the source depends on: DNSRecord.parse raises on malformed input,
  pickle.loads raises EOFError on empty input and UnpicklingError on
  bytes that are not a valid serialization, a socket with no timeout
  blocks forever when no datagram arrives.
-/

/-- Raw datagram bytes (one natural per byte). -/
abbrev Bytes := List Nat

/-- A client return address, opaque to the cache logic. -/
abbrev Addr := String

/-- One opaque DNS record payload (rr.rdata in the source), opaque blob. -/
abbrev RData := Nat

/-- The Python exception classes the source code distinguishes. -/
inductive PyErr where
  | keyError
  | indexError
  | eofError
  | fileNotFound
  | unpicklingError
  | dnsError
  | socketError
deriving DecidableEq

/-- A cache entry: the source stores the Python list
`[r_data, time_end, ttl]` (caching_dns.py line 97): the decoded record
payloads, the absolute expiry timestamp, and the ttl the upstream
reported. -/
structure CacheEntry where
  rdata : List RData
  timeEnd : Nat
  ttl : Nat
deriving DecidableEq

/-- The cache: the source uses a dict from domain name to a dict from
query type to the entry (self.dns_cache). Modelled as a nested
association list in insertion order. -/
abbrev Cache := List (String × List (String × CacheEntry))

/-- Python dict lookup `d[k]` as an Option (first binding wins; the
operations below keep keys unique the way dicts do). -/
def dictLookup (k : String) : List (String × α) → Option α
  | [] => none
  | (k0, v) :: rest => if k0 = k then some v else dictLookup k rest

/-- Python `d.setdefault(k, v)`: store v only when k is absent; a new
key goes to the end (dict insertion order). -/
def dictSetdefault (k : String) (v : α) (d : List (String × α)) : List (String × α) :=
  match dictLookup k d with
  | some _ => d
  | none => d ++ [(k, v)]

/-- Rebinding of an existing key k to v, keeping its position: models
an in-place mutation of the object stored under k. -/
def dictReplace (k : String) (v : α) : List (String × α) → List (String × α)
  | [] => []
  | (k0, w) :: rest =>
    if k0 = k then (k0, v) :: dictReplace k v rest else (k0, w) :: dictReplace k v rest

/-- Removal of every binding of key k (dicts hold at most one). -/
def dictRemoveKey (k : String) : List (String × α) → List (String × α)
  | [] => []
  | (k0, w) :: rest =>
    if k0 = k then dictRemoveKey k rest else (k0, w) :: dictRemoveKey k rest

/-- Well-formedness the Python dicts guarantee: keys unique at the
outer level and in every inner dict. -/
abbrev keysNodup (c : Cache) : Prop :=
  (c.map Prod.fst).Nodup ∧ ∀ p ∈ c, (p.2.map Prod.fst).Nodup

/-- `self.dns_cache[domain_name][q_type]` as an Option: the nested
lookup the source performs after its membership checks. -/
def lookupEntry (c : Cache) (domain_name q_type : String) : Option CacheEntry :=
  (dictLookup domain_name c).bind (fun inner => dictLookup q_type inner)

/-- The cache write of make_request (caching_dns.py lines 96 and 97):
`self.dns_cache.setdefault(domain_name, \x7b\x7d)` followed by
`self.dns_cache[domain_name].setdefault(q_type, [r_data, time_end, ttl])`. -/
def cacheInsert (c : Cache) (domain_name q_type : String) (entry : CacheEntry) : Cache :=
  let c1 := dictSetdefault domain_name [] c
  match dictLookup domain_name c1 with
  | none => c1
  | some inner => dictReplace domain_name (dictSetdefault q_type entry inner) c1

/-- `del self.dns_cache[domain_name][q_type]` (caching_dns.py line
171): the outer item access raises KeyError when the domain is absent,
and del raises KeyError when the query type is absent. -/
def delEntry (c : Cache) (domain_name q_type : String) : Except PyErr Cache :=
  match dictLookup domain_name c with
  | none => .error .keyError
  | some inner =>
    match dictLookup q_type inner with
    | none => .error .keyError
    | some _ => .ok (dictReplace domain_name (dictRemoveKey q_type inner) c)

/-! ## Persistence: pickle model and read_cache -/

/-- State of the snapshot file dns_cache.pickle on disk. -/
inductive FileState where
  | missing
  | contents (b : Bytes)

/-- Consume one natural from the byte stream. -/
def readNum : Bytes → Option (Nat × Bytes)
  | [] => none
  | n :: rest => some (n, rest)

/-- Consume a counted run of naturals. -/
def readNums : Nat → Bytes → Option (List Nat × Bytes)
  | 0, b => some ([], b)
  | n + 1, b => do
    let (x, b1) ← readNum b
    let (xs, b2) ← readNums n b1
    pure (x :: xs, b2)

/-- Consume a length-prefixed string. -/
def readStr (b : Bytes) : Option (String × Bytes) := do
  let (n, b1) ← readNum b
  let (cs, b2) ← readNums n b1
  pure (String.mk (cs.map Char.ofNat), b2)

/-- Consume one serialized cache entry. -/
def readEntry (b : Bytes) : Option (CacheEntry × Bytes) := do
  let (n, b1) ← readNum b
  let (rd, b2) ← readNums n b1
  let (te, b3) ← readNum b2
  let (ttl, b4) ← readNum b3
  pure (⟨rd, te, ttl⟩, b4)

/-- Consume a counted inner dict (query type to entry). -/
def readInner : Nat → Bytes → Option (List (String × CacheEntry) × Bytes)
  | 0, b => some ([], b)
  | n + 1, b => do
    let (q, b1) ← readStr b
    let (e, b2) ← readEntry b1
    let (rest, b3) ← readInner n b2
    pure ((q, e) :: rest, b3)

/-- Consume a counted outer dict (domain name to inner dict). -/
def readDomains : Nat → Bytes → Option (Cache × Bytes)
  | 0, b => some ([], b)
  | n + 1, b => do
    let (d, b1) ← readStr b
    let (m, b2) ← readNum b1
    let (inner, b3) ← readInner m b2
    let (rest, b4) ← readDomains n b3
    pure ((d, inner) :: rest, b4)

/-- Model of the external pickle library: `pickle.loads` raises
EOFError on empty input, returns the deserialized dict on a valid
serialization (protocol header byte 128 followed by the cache data),
and raises UnpicklingError on anything else. -/
def pickleLoads (b : Bytes) : Except PyErr Cache :=
  match b with
  | [] => .error .eofError
  | 128 :: rest =>
    match readNum rest with
    | none => .error .unpicklingError
    | some (n, b1) =>
      match readDomains n b1 with
      | none => .error .unpicklingError
      | some (c, _) => .ok c
  | _ => .error .unpicklingError

/-- read_cache (caching_dns.py lines 11 to 22): `open(path, "rb")`
raises FileNotFoundError on a missing file and nothing catches it;
inside, only EOFError from pickle.loads is caught (returning the empty
dict), so UnpicklingError from corrupt contents propagates. -/
def read_cache (fs : FileState) : Except PyErr Cache :=
  match fs with
  | .missing => .error .fileNotFound
  | .contents b =>
    match pickleLoads b with
    | .error .eofError => .ok []
    | .error e => .error e
    | .ok c => .ok c

/-! ## Wire codec model and the forwarding / serving path -/

/-- One DNS question as the source reads it from a parsed record. -/
structure DNSQuestion where
  qname : String
  qtype : String
deriving DecidableEq

/-- A parsed inbound request: an opaque header plus its questions
(`request.header`, `request.questions`). -/
structure DNSRequest where
  header : Nat
  questions : List DNSQuestion
deriving DecidableEq

/-- A parsed upstream response as get_response_info consumes it: the
answer records, each carrying its ttl and payload (`response.rr`). -/
structure ParsedResponse where
  rr : List (Nat × RData)
deriving DecidableEq

/-- One answer record of a response the proxy builds (the RR
constructor call in prepare_dns_response). -/
structure RRecord where
  rname : String
  rtype : String
  rdata : RData
  ttl : Nat
deriving DecidableEq

/-- A response under construction in prepare_dns_response. -/
structure DNSResponse where
  header : Nat
  questions : List DNSQuestion
  answers : List RRecord
deriving DecidableEq

/-- The external dnslib codec, as the behaviour the source depends on:
parsing raw bytes either yields the question fields or raises, and a
built response can be packed back to bytes. -/
structure WireCodec where
  parseQuery : Bytes → Except PyErr (String × String)
  parseRequest : Bytes → Except PyErr DNSRequest
  pack : DNSResponse → Bytes

/-- get_request_info (caching_dns.py lines 25 to 32): DNSRecord.parse
plus extraction of (qname, qtype); a parse failure raises. -/
def get_request_info (codec : WireCodec) (data : Bytes) : Except PyErr (String × String) :=
  codec.parseQuery data

/-- get_response_info (caching_dns.py lines 35 to 47): collect every
rdata, then read `response.rr[0].ttl`, which raises IndexError when
the record list is empty. -/
def get_response_info (response : ParsedResponse) : Except PyErr (Nat × List RData) :=
  let rdata_list := response.rr.map Prod.snd
  match response.rr.head? with
  | none => .error .indexError
  | some rr0 => .ok (rr0.1, rdata_list)

/-- make_request (caching_dns.py lines 71 to 101), after the upstream
exchange: `upstream` carries the raw reply bytes together with the
DNSRecord.parse outcome on them. `if data_response:` skips an empty
reply; the try block decodes, computes
`time_end = current_time + timedelta(milliseconds=ttl)` (so, in our
millisecond clock, current_time + ttl), writes the cache via the two
setdefault calls, and relays the raw reply to the client; any
exception inside is caught and nothing is sent. Returns the new cache
and the datagrams sent to the client. -/
def make_request (upstream : Bytes × Except PyErr ParsedResponse)
    (current_time : Nat) (c : Cache) (domain_name q_type : String)
    (address_request : Addr) : Cache × List (Bytes × Addr) :=
  let data_response := upstream.1
  if data_response.isEmpty then (c, [])
  else
    match upstream.2.bind get_response_info with
    | .error _ => (c, [])
    | .ok (ttl, r_data) =>
      let time_end := current_time + ttl
      (cacheInsert c domain_name q_type ⟨r_data, time_end, ttl⟩,
        [(data_response, address_request)])

/-- prepare_dns_response (caching_dns.py lines 103 to 129): re-parse
the request (a failure raises), take `request.questions[0]` (an empty
question list raises IndexError), read the entry from the cache (an
absent key raises KeyError), then build a response reusing the request
header and question and one answer per cached payload, every answer
under the question qname and qtype with the stored ttl. -/
def prepare_dns_response (codec : WireCodec) (c : Cache) (data_request : Bytes)
    (domain_name q_type : String) : Except PyErr DNSResponse :=
  match codec.parseRequest data_request with
  | .error e => .error e
  | .ok request =>
    match request.questions.head? with
    | none => .error .indexError
    | some question =>
      match lookupEntry c domain_name q_type with
      | none => .error .keyError
      | some entry =>
        .ok { header := request.header
              questions := [question]
              answers := entry.rdata.map (fun rd =>
                ⟨question.qname, question.qtype, rd, entry.ttl⟩) }

/-- What one receive on the listening socket produced. -/
inductive RecvEvent where
  | datagram (data : Bytes) (addr : Addr)
  | timeoutError
  | connectionResetError

/-- How one iteration of the serving loop ends when no exception
escapes it: continue looping with a possibly updated cache after
having sent the listed datagrams, or leave the loop. -/
inductive IterOutcome where
  | next (c : Cache) (sent : List (Bytes × Addr))
  | exitLoop
deriving DecidableEq

/-- One iteration of the working_dns serving loop body (caching_dns.py
lines 182 to 221), entered with running true. `runningAfterRecv` is
the value of self.running re-read inside the two recv exception
handlers; `now` is the clock sample of the freshness check on line
198 and `current_time` the one make_request takes on line 93;
`upstream` is the upstream exchange outcome handed to make_request.
An exception raised by the body (in particular a DNSRecord.parse
failure in get_request_info) is returned as `.error` since no handler
inside the loop catches it. -/
def working_dns_iter (codec : WireCodec) (runningAfterRecv : Bool) (ev : RecvEvent)
    (c : Cache) (now : Nat) (upstream : Bytes × Except PyErr ParsedResponse)
    (current_time : Nat) : Except PyErr IterOutcome :=
  match ev with
  | .timeoutError =>
    if runningAfterRecv then .ok (.next c []) else .ok .exitLoop
  | .connectionResetError =>
    if runningAfterRecv then .ok (.next c []) else .ok .exitLoop
  | .datagram data_request address_request =>
    if data_request.isEmpty then .ok (.next c [])
    else
      match get_request_info codec data_request with
      | .error e => .error e
      | .ok (domain_name, q_type) =>
        match lookupEntry c domain_name q_type with
        | some entry =>
          if now < entry.timeEnd then
            match prepare_dns_response codec c data_request domain_name q_type with
            | .error e => .error e
            | .ok resp => .ok (.next c [(codec.pack resp, address_request)])
          else
            let r := make_request upstream current_time c domain_name q_type address_request
            .ok (.next r.1 r.2)
        | none =>
          let r := make_request upstream current_time c domain_name q_type address_request
          .ok (.next r.1 r.2)

/-- The only exception handler wrapped around the serving loop
(caching_dns.py line 222) catches socket.error alone; every other
exception class escaping an iteration terminates the loop and the
Listener thread. -/
def working_dns_loop_caught (e : PyErr) : Bool :=
  match e with
  | .socketError => true
  | _ => false

/-! ## Eviction sweeper -/

/-- All cache entries in the nested iteration order of the two for
loops of search_expired_records (caching_dns.py lines 163 to 166). -/
def entriesOf : Cache → List (String × String × CacheEntry)
  | [] => []
  | (d, inner) :: rest => inner.map (fun qe => (d, qe.1, qe.2)) ++ entriesOf rest

/-- Collection phase of one sweep pass: the source evaluates
`datetime.datetime.now()` afresh for every entry checked (line 165),
so the clock is a function from the index of the check to the sampled
time; an entry is collected when its expiry is at or before that
sample. -/
def collectExpiredAux (now : Nat → Nat) : Nat → List (String × String × CacheEntry) → List (String × String)
  | _, [] => []
  | i, x :: rest =>
    if x.2.2.timeEnd ≤ now i then (x.1, x.2.1) :: collectExpiredAux now (i + 1) rest
    else collectExpiredAux now (i + 1) rest

/-- The records_to_remove list built by one pass. -/
def collectExpired (c : Cache) (now : Nat → Nat) : List (String × String) :=
  collectExpiredAux now 0 (entriesOf c)

/-- Removal phase of one pass: `del` each collected key in order
(caching_dns.py lines 167 to 171). -/
def removeAll (ks : List (String × String)) (c : Cache) : Except PyErr Cache :=
  match ks with
  | [] => .ok c
  | k :: rest =>
    match delEntry c k.1 k.2 with
    | .error e => .error e
    | .ok c1 => removeAll rest c1

/-- One full pass of the search_expired_records loop body: collect
the stale keys, then delete them. -/
def search_expired_records_pass (c : Cache) (now : Nat → Nat) : Except PyErr Cache :=
  removeAll (collectExpired c now) c

/-! ## Lifecycle controller and socket timeouts -/

/-- The externally visible actions of the start_dns control loop once
the threads are started. -/
inductive LifeAction where
  | setRunningFalse
  | joinSweeper
  | joinListener
  | saveCache
  | exitProcess
deriving DecidableEq

/-- The start_dns control loop (caching_dns.py lines 149 to 155): read
console lines until one equals exit, then set self.running to False,
save the cache snapshot, and call sys.exit; the thread objects are
never joined. An exhausted input list means the loop is still blocked
reading, having performed no action. -/
def start_dns_control : List String → List LifeAction
  | [] => []
  | s :: rest =>
    if s = "exit" then [.setRunningFalse, .saveCache, .exitProcess]
    else start_dns_control rest

/-- Outcome of a blocking UDP receive given the socket timeout
configuration and whether a datagram ever arrives. -/
inductive RecvOutcome where
  | got (b : Bytes)
  | timedOut
  | blocksForever
deriving DecidableEq

/-- Model of socket.recvfrom: with no datagram arriving, a socket with
a timeout raises after the bound, and a socket with timeout None
blocks forever. -/
def recvfrom (timeout : Option Nat) (reply : Option Bytes) : RecvOutcome :=
  match reply with
  | some b => .got b
  | none =>
    match timeout with
    | some _ => .timedOut
    | none => .blocksForever

/-- The listening socket timeout: working_dns calls
`sock_rec.settimeout(5)` every iteration (caching_dns.py line 183). -/
def sock_rec_timeout : Option Nat := some 5

/-- The upstream socket timeout: the source never calls settimeout on
sock_send (created on line 180, used on lines 88 and 89), so it keeps
the default of None, a fully blocking receive. -/
def sock_send_timeout : Option Nat := none

/-! ## Concrete instances used by counterexamples and witnesses -/

/-- A codec on which parsing the probe datagram fails, as dnslib does
on bytes that are not a DNS message. -/
def codecReject : WireCodec :=
  { parseQuery := fun _ => .error .dnsError
    parseRequest := fun _ => .error .dnsError
    pack := fun _ => [] }

/-- A codec that parses every datagram into one fixed well-formed
question, for exercising the cache-hit path. -/
def codecConst : WireCodec :=
  { parseQuery := fun _ => .ok ("w.", "A")
    parseRequest := fun _ => .ok ⟨7, [⟨"w.", "A"⟩]⟩
    pack := fun _ => [] }

/-- An entry already present in the cache before an insert. -/
def entryOld : CacheEntry := ⟨[1], 10, 10⟩

/-- A fresher entry offered to the cache for the same key. -/
def entryNew : CacheEntry := ⟨[2], 20, 20⟩

/-- An entry expiring at time 5. -/
def entryAt5 : CacheEntry := ⟨[1], 5, 5⟩

/-- An entry expiring at time 10. -/
def entryAt10 : CacheEntry := ⟨[2], 10, 10⟩

/-- A one-entry cache used to instantiate the sweep theorem. -/
def cacheW : Cache := [("b", [("A", entryAt10)])]

/-- A two-record cached entry used to instantiate the response
construction theorem. -/
def entryTwoRecords : CacheEntry := ⟨[5, 6], 60, 60⟩

/-- A one-entry cache holding entryTwoRecords under (w., A). -/
def cacheHit : Cache := [("w.", [("A", entryTwoRecords)])]

/-- An entry used to exercise the removal path. -/
def entryDel : CacheEntry := ⟨[3], 8, 8⟩

/-- A clock stuck at 4 (every sample of the pass reads 4). -/
def clockAt4 : Nat → Nat := fun _ => 4

/-- A clock stuck at 7 (every sample of the pass reads 7). -/
def clockAt7 : Nat → Nat := fun _ => 7

/-! ## Lemmas about the dictionary operations -/

theorem dictLookup_append_of_none {α : Type} {k : String} {l1 l2 : List (String × α)}
    (h : dictLookup k l1 = none) : dictLookup k (l1 ++ l2) = dictLookup k l2 := by
  induction l1 with
  | nil => rfl
  | cons p rest ih =>
    obtain ⟨k0, v⟩ := p
    by_cases hk : k0 = k
    · simp [dictLookup, hk] at h
    · simp only [dictLookup, List.cons_append, if_neg hk] at h ⊢
      exact ih h

theorem dictLookup_replace_self {α : Type} (d : String) (v : α) (l : List (String × α)) :
    dictLookup d (dictReplace d v l) = (dictLookup d l).map (fun _ => v) := by
  induction l with
  | nil => rfl
  | cons p rest ih =>
    obtain ⟨k0, w⟩ := p
    by_cases hk : k0 = d
    · subst hk
      simp [dictReplace, dictLookup, ih]
    · simp [dictReplace, dictLookup, hk, ih]

theorem dictLookup_replace_ne {α : Type} {x d : String} (v : α) (l : List (String × α))
    (hx : x ≠ d) : dictLookup x (dictReplace d v l) = dictLookup x l := by
  induction l with
  | nil => rfl
  | cons p rest ih =>
    obtain ⟨k0, w⟩ := p
    by_cases hk : k0 = d
    · subst hk
      have hkx : ¬k0 = x := fun h => hx h.symm
      simp [dictReplace, dictLookup, hkx, ih]
    · by_cases hk0 : k0 = x
      · subst hk0
        simp [dictReplace, dictLookup, hk]
      · simp [dictReplace, dictLookup, hk, hk0, ih]

theorem dictLookup_removeKey_self {α : Type} (q : String) (l : List (String × α)) :
    dictLookup q (dictRemoveKey q l) = none := by
  induction l with
  | nil => rfl
  | cons p rest ih =>
    obtain ⟨k0, w⟩ := p
    by_cases hk : k0 = q
    · simp [dictRemoveKey, hk, ih]
    · simp [dictRemoveKey, dictLookup, hk, ih]

theorem dictLookup_removeKey_ne {α : Type} {y q : String} (l : List (String × α))
    (hy : y ≠ q) : dictLookup y (dictRemoveKey q l) = dictLookup y l := by
  induction l with
  | nil => rfl
  | cons p rest ih =>
    obtain ⟨k0, w⟩ := p
    by_cases hk : k0 = q
    · subst hk
      have hky : ¬k0 = y := fun h => hy h.symm
      simp [dictRemoveKey, dictLookup, hky, ih]
    · by_cases hk0 : k0 = y
      · subst hk0
        simp [dictRemoveKey, dictLookup, hk]
      · simp [dictRemoveKey, dictLookup, hk, hk0, ih]

theorem mem_of_dictLookup {α : Type} {k : String} {v : α} {l : List (String × α)}
    (h : dictLookup k l = some v) : (k, v) ∈ l := by
  induction l with
  | nil => simp [dictLookup] at h
  | cons p rest ih =>
    obtain ⟨k0, w⟩ := p
    by_cases hk : k0 = k
    · subst hk
      simp only [dictLookup, if_true, eq_self_iff_true, Option.some.injEq] at h
      subst h
      exact List.mem_cons_self _ _
    · simp only [dictLookup, if_neg hk] at h
      exact List.mem_cons_of_mem _ (ih h)

theorem dictLookup_eq_some_of_mem {α : Type} {q : String} {v : α} {l : List (String × α)}
    (hnd : (l.map Prod.fst).Nodup) (hm : (q, v) ∈ l) : dictLookup q l = some v := by
  induction l with
  | nil => cases hm
  | cons p rest ih =>
    obtain ⟨k0, w⟩ := p
    simp only [List.map_cons, List.nodup_cons] at hnd
    rcases List.mem_cons.mp hm with h | h
    · injection h with h1 h2
      subst h1
      subst h2
      simp [dictLookup]
    · have hk : k0 ≠ q := by
        intro hk
        subst hk
        exact hnd.1 (List.mem_map.mpr ⟨(k0, v), h, rfl⟩)
      simp only [dictLookup, if_neg hk]
      exact ih hnd.2 h

/-! ## Lemmas about delEntry and removeAll -/

theorem delEntry_spec {c : Cache} {d q : String} {e : CacheEntry}
    (h : lookupEntry c d q = some e) :
    ∃ c1, delEntry c d q = Except.ok c1 ∧
      ∀ x y, lookupEntry c1 x y = if x = d ∧ y = q then none else lookupEntry c x y := by
  unfold lookupEntry at h
  cases hd : dictLookup d c with
  | none => rw [hd] at h; simp at h
  | some inner =>
    rw [hd] at h
    simp only [Option.some_bind] at h
    refine ⟨dictReplace d (dictRemoveKey q inner) c, ?_, ?_⟩
    · simp [delEntry, hd, h]
    · intro x y
      by_cases hx : x = d
      · subst hx
        unfold lookupEntry
        rw [dictLookup_replace_self, hd]
        by_cases hy : y = q
        · subst hy
          simp [dictLookup_removeKey_self]
        · simp only [Option.map_some', Option.some_bind]
          rw [dictLookup_removeKey_ne inner hy, if_neg (fun hc => hy hc.2)]
      · unfold lookupEntry
        rw [dictLookup_replace_ne _ _ hx, if_neg (fun hc => hx hc.1)]

theorem removeAll_spec : ∀ (ks : List (String × String)) (c : Cache),
    ks.Nodup → (∀ k ∈ ks, (lookupEntry c k.1 k.2).isSome) →
    ∃ c2, removeAll ks c = Except.ok c2 ∧
      ∀ x y, lookupEntry c2 x y = if (x, y) ∈ ks then none else lookupEntry c x y := by
  intro ks
  induction ks with
  | nil =>
    intro c _ _
    exact ⟨c, rfl, by simp⟩
  | cons k rest ih =>
    intro c hnd hpres
    obtain ⟨e, he⟩ := Option.isSome_iff_exists.mp (hpres k (List.mem_cons_self _ _))
    obtain ⟨c1, hdel, hchar⟩ := delEntry_spec he
    have hknotin : k ∉ rest := (List.nodup_cons.mp hnd).1
    have hpres1 : ∀ k2 ∈ rest, (lookupEntry c1 k2.1 k2.2).isSome := by
      intro k2 hk2
      rw [hchar k2.1 k2.2]
      have hne : ¬(k2.1 = k.1 ∧ k2.2 = k.2) := by
        intro hcontra
        apply hknotin
        have hk2k : k2 = k := Prod.ext_iff.mpr ⟨hcontra.1, hcontra.2⟩
        rwa [hk2k] at hk2
      rw [if_neg hne]
      exact hpres k2 (List.mem_cons_of_mem _ hk2)
    obtain ⟨c2, hrm, hchar2⟩ := ih c1 (List.nodup_cons.mp hnd).2 hpres1
    refine ⟨c2, ?_, ?_⟩
    · unfold removeAll
      rw [hdel]
      exact hrm
    · intro x y
      rw [hchar2 x y, hchar x y]
      by_cases hmem : (x, y) ∈ rest
      · simp [hmem, List.mem_cons]
      · by_cases hk2 : x = k.1 ∧ y = k.2
        · have hxy : (x, y) = k := Prod.ext_iff.mpr ⟨hk2.1, hk2.2⟩
          simp [hmem, hxy, List.mem_cons, hk2]
        · have hxy : ¬(x, y) = k := by
            intro hc
            exact hk2 ⟨by rw [← hc], by rw [← hc]⟩
          simp [hmem, List.mem_cons, hxy, hk2]

/-! ## Lemmas about entriesOf and the collection phase -/

theorem fst_mem_of_mem_entriesOf : ∀ {l : Cache} {x : String × String × CacheEntry},
    x ∈ entriesOf l → x.1 ∈ l.map Prod.fst := by
  intro l
  induction l with
  | nil => intro x hx; cases hx
  | cons p rest ih =>
    obtain ⟨d0, inner0⟩ := p
    intro x hx
    rcases List.mem_append.mp hx with h | h
    · obtain ⟨qe, _, rfl⟩ := List.mem_map.mp h
      simp
    · simp only [List.map_cons]
      exact List.mem_cons_of_mem _ (ih h)

theorem mem_entriesOf_intro : ∀ {c : Cache} {d q : String}
    {inner : List (String × CacheEntry)} {e : CacheEntry},
    (d, inner) ∈ c → (q, e) ∈ inner → (d, q, e) ∈ entriesOf c := by
  intro c
  induction c with
  | nil => intro d q inner e h1 _; cases h1
  | cons p rest ih =>
    obtain ⟨d0, inner0⟩ := p
    intro d q inner e h1 h2
    rcases List.mem_cons.mp h1 with h | h
    · injection h with hd hi
      subst hd
      subst hi
      exact List.mem_append.mpr (Or.inl (List.mem_map.mpr ⟨(q, e), h2, rfl⟩))
    · exact List.mem_append.mpr (Or.inr (ih h h2))

theorem mem_entriesOf_of_lookup {c : Cache} {d q : String} {e : CacheEntry}
    (h : lookupEntry c d q = some e) : (d, q, e) ∈ entriesOf c := by
  unfold lookupEntry at h
  cases hd : dictLookup d c with
  | none => rw [hd] at h; simp at h
  | some inner =>
    rw [hd] at h
    simp only [Option.some_bind] at h
    exact mem_entriesOf_intro (mem_of_dictLookup hd) (mem_of_dictLookup h)

theorem lookupEntry_of_mem_entriesOf : ∀ {c : Cache}, keysNodup c →
    ∀ {d q : String} {e : CacheEntry}, (d, q, e) ∈ entriesOf c → lookupEntry c d q = some e := by
  intro c
  induction c with
  | nil => intro _ d q e h; cases h
  | cons p rest ih =>
    obtain ⟨d0, inner0⟩ := p
    intro hnd d q e h
    have houter := hnd.1
    simp only [List.map_cons, List.nodup_cons] at houter
    rcases List.mem_append.mp h with h1 | h1
    · obtain ⟨qe, hqe, heq⟩ := List.mem_map.mp h1
      injection heq with hd0 hrest
      injection hrest with hq he
      subst hd0
      subst hq
      subst he
      have hinner0 : (inner0.map Prod.fst).Nodup := by
        have := hnd.2 (d0, inner0) (List.mem_cons_self _ _)
        simpa using this
      unfold lookupEntry
      simp only [dictLookup, if_pos rfl, Option.some_bind]
      exact dictLookup_eq_some_of_mem hinner0 (by simpa using hqe)
    · have hdmem : d ∈ rest.map Prod.fst := fst_mem_of_mem_entriesOf h1
      have hne : d0 ≠ d := fun hc => houter.1 (hc ▸ hdmem)
      have hndrest : keysNodup rest :=
        ⟨houter.2, fun p hp => hnd.2 p (List.mem_cons_of_mem _ hp)⟩
      unfold lookupEntry
      simp only [dictLookup, if_neg hne]
      exact ih hndrest h1

theorem entriesOf_pairs_nodup : ∀ {c : Cache}, keysNodup c →
    ((entriesOf c).map (fun x => (x.1, x.2.1))).Nodup := by
  intro c
  induction c with
  | nil => intro _; simp [entriesOf]
  | cons p rest ih =>
    obtain ⟨d0, inner0⟩ := p
    intro hnd
    have houter := hnd.1
    simp only [List.map_cons, List.nodup_cons] at houter
    have hndrest : keysNodup rest :=
      ⟨houter.2, fun p hp => hnd.2 p (List.mem_cons_of_mem _ hp)⟩
    have hinner0 : (inner0.map Prod.fst).Nodup := by
      have := hnd.2 (d0, inner0) (List.mem_cons_self _ _)
      simpa using this
    simp only [entriesOf, List.map_append]
    rw [List.nodup_append]
    refine ⟨?_, ih hndrest, ?_⟩
    · have heq : (inner0.map (fun qe => (d0, qe.1, qe.2))).map (fun x => (x.1, x.2.1))
          = (inner0.map Prod.fst).map (fun q => (d0, q)) := by
        simp [List.map_map, Function.comp]
      rw [heq]
      exact hinner0.map (fun a b hab => by simpa using hab)
    · intro a ha1 ha2
      obtain ⟨x1, hx1, heq1⟩ := List.mem_map.mp ha1
      obtain ⟨x2, hx2, heq2⟩ := List.mem_map.mp ha2
      obtain ⟨qe, _, rfl⟩ := List.mem_map.mp hx1
      have hfst : x2.1 = d0 := by
        have : x2.1 = a.1 := by rw [← heq2]
        rw [this, ← heq1]
      exact houter.1 (hfst ▸ fst_mem_of_mem_entriesOf hx2)

theorem collectExpiredAux_sublist (now : Nat → Nat) :
    ∀ (l : List (String × String × CacheEntry)) (i : Nat),
      List.Sublist (collectExpiredAux now i l) (l.map (fun x => (x.1, x.2.1))) := by
  intro l
  induction l with
  | nil => intro i; simp [collectExpiredAux]
  | cons x rest ih =>
    intro i
    simp only [collectExpiredAux, List.map_cons]
    by_cases hc : x.2.2.timeEnd ≤ now i
    · rw [if_pos hc]
      exact (ih (i + 1)).cons₂ _
    · rw [if_neg hc]
      exact (ih (i + 1)).cons _

theorem mem_collectExpiredAux {now : Nat → Nat} {k : String × String} :
    ∀ (l : List (String × String × CacheEntry)) (i : Nat),
      k ∈ collectExpiredAux now i l →
      ∃ j e2, l.get? j = some (k.1, k.2, e2) ∧ e2.timeEnd ≤ now (i + j) := by
  intro l
  induction l with
  | nil => intro i h; simp [collectExpiredAux] at h
  | cons x rest ih =>
    intro i h
    by_cases hc : x.2.2.timeEnd ≤ now i
    · simp only [collectExpiredAux] at h
      rw [if_pos hc] at h
      rcases List.mem_cons.mp h with h1 | h1
      · subst h1
        exact ⟨0, x.2.2, by simp, by rw [Nat.add_zero]; exact hc⟩
      · obtain ⟨j, e2, hget, hle⟩ := ih (i + 1) h1
        exact ⟨j + 1, e2, hget,
          by rw [show i + (j + 1) = (i + 1) + j from by omega]; exact hle⟩
    · simp only [collectExpiredAux] at h
      rw [if_neg hc] at h
      obtain ⟨j, e2, hget, hle⟩ := ih (i + 1) h
      exact ⟨j + 1, e2, hget,
        by rw [show i + (j + 1) = (i + 1) + j from by omega]; exact hle⟩

theorem collect_of_get {now : Nat → Nat} :
    ∀ (l : List (String × String × CacheEntry)) (i j : Nat) (x : String × String × CacheEntry),
      l.get? j = some x → x.2.2.timeEnd ≤ now (i + j) →
      (x.1, x.2.1) ∈ collectExpiredAux now i l := by
  intro l
  induction l with
  | nil => intro i j x hget _; cases j <;> simp [List.get?] at hget
  | cons y rest ih =>
    intro i j x hget hle
    cases j with
    | zero =>
      have hxy : y = x := by
        rw [List.get?_cons_zero] at hget
        injection hget
      subst hxy
      rw [Nat.add_zero] at hle
      simp only [collectExpiredAux]
      rw [if_pos hle]
      exact List.mem_cons_self _ _
    | succ j =>
      rw [List.get?_cons_succ] at hget
      have hle2 : x.2.2.timeEnd ≤ now ((i + 1) + j) := by
        rw [show (i + 1) + j = i + (j + 1) from by omega]
        exact hle
      simp only [collectExpiredAux]
      by_cases hc : y.2.2.timeEnd ≤ now i
      · rw [if_pos hc]
        exact List.mem_cons_of_mem _ (ih (i + 1) j x hget hle2)
      · rw [if_neg hc]
        exact ih (i + 1) j x hget hle2

/-! ## Claim theorems -/

/-- Claim C1 (code bug). The claim says an upstream answer with
ttl=300 inserted at time t is stored with expiry t + 300 seconds
(t + 300000 in our millisecond clock). The code instead builds the
expiry with datetime.timedelta(milliseconds=ttl) on line 94, so the
entry inserted at t = 0 is stored with timeEnd 300 milliseconds, not
300000: the decoded ttl (seconds per the DNS protocol, and replayed
as seconds by prepare_dns_response) is misread as milliseconds. -/
theorem make_request_ttl_milliseconds_bug :
    lookupEntry (make_request ([1], Except.ok ⟨[(300, 7)]⟩) 0 [] "example.com." "A" "client").1
        "example.com." "A" = some ⟨[7], 300, 300⟩ ∧
    (300 : Nat) ≠ 300 * 1000 :=
  ⟨rfl, by decide⟩

/-- Claim C2 counterexample. Inserting entryNew for a key that already
holds entryOld leaves entryOld in place: the two setdefault calls of
make_request never overwrite, so get after put returns the old entry,
refuting the claim that put(key, entry) replaces the existing entry. -/
theorem cacheInsert_overwrite_counterexample :
    lookupEntry (cacheInsert [("a", [("A", entryOld)])] "a" "A" entryNew) "a" "A"
      = some entryOld ∧ entryOld ≠ entryNew :=
  ⟨rfl, by decide⟩

/-- Claim C2 (amended). The insert of make_request stores the offered
entry only when the (domain, qtype) key is absent: after the insert,
get returns the previously stored entry when one existed, and the new
entry otherwise. -/
theorem cacheInsert_spec (c : Cache) (domain_name q_type : String) (entry : CacheEntry) :
    lookupEntry (cacheInsert c domain_name q_type entry) domain_name q_type
      = some ((lookupEntry c domain_name q_type).getD entry) := by
  unfold cacheInsert lookupEntry
  cases hd : dictLookup domain_name c with
  | none =>
    have h1 : dictLookup domain_name (c ++ [(domain_name, [])]) = some [] := by
      rw [dictLookup_append_of_none hd]
      simp [dictLookup]
    simp only [dictSetdefault, hd, h1]
    rw [dictLookup_replace_self, h1]
    simp [dictSetdefault, dictLookup]
  | some inner =>
    simp only [dictSetdefault, hd]
    rw [dictLookup_replace_self, hd]
    cases hq : dictLookup q_type inner with
    | none =>
      simp only [dictSetdefault, hq, Option.map_some', Option.some_bind]
      rw [dictLookup_append_of_none hq]
      simp [dictLookup]
    | some old =>
      simp only [dictSetdefault, hq, Option.map_some', Option.some_bind]
      rfl

/-- Claim C3 (code bug). A datagram the codec cannot decode makes
get_request_info raise, and the only handler around the serving loop
catches socket.error alone, so the exception escapes the iteration:
the loop body neither drops the datagram and continues nor sends
anything, contradicting the claim that a decode failure never raises
out of the loop body. -/
theorem working_dns_decode_failure_bug :
    working_dns_iter codecReject true (RecvEvent.datagram [0] "client") [] 0
        ([], Except.error PyErr.dnsError) 0 = Except.error PyErr.dnsError ∧
    working_dns_loop_caught PyErr.dnsError = false :=
  ⟨rfl, rfl⟩

/-- Claim C4 (code bug). read_cache returns the empty cache only for
an empty snapshot file (EOFError is the one exception caught); a
missing file raises FileNotFoundError out of open, and corrupt
contents raise UnpicklingError, so the claim that a missing or
unparseable snapshot yields an empty cache fails on two of its three
cases, while a valid snapshot still loads. -/
theorem read_cache_failure_bug :
    read_cache FileState.missing = Except.error PyErr.fileNotFound ∧
    read_cache (FileState.contents []) = Except.ok [] ∧
    read_cache (FileState.contents [7]) = Except.error PyErr.unpicklingError ∧
    read_cache (FileState.contents [128, 0]) = Except.ok [] :=
  ⟨rfl, rfl, rfl, rfl⟩

/-- Claim C5 counterexample. The stop branch of start_dns performs
exactly flag flip, snapshot save, process exit: no join or wait on the
Sweeper or Listener thread occurs anywhere in the sequence, refuting
the claim that the snapshot is persisted only after both loops have
been observed to exit. -/
theorem start_dns_shutdown_counterexample :
    start_dns_control ["exit"]
      = [LifeAction.setRunningFalse, LifeAction.saveCache, LifeAction.exitProcess] ∧
    LifeAction.joinSweeper ∉ start_dns_control ["exit"] ∧
    LifeAction.joinListener ∉ start_dns_control ["exit"] :=
  ⟨by decide, by decide, by decide⟩

/-- Claim C5 (amended). On the first console line equal to exit, the
controller flips the running flag first and then immediately persists
the snapshot and calls sys.exit, without waiting for the Sweeper or
the Listener to observe the flag: the action sequence is exactly flag
flip, save, exit. -/
theorem start_dns_stop_sequence_spec (inputs : List String) (h : "exit" ∈ inputs) :
    start_dns_control inputs
      = [LifeAction.setRunningFalse, LifeAction.saveCache, LifeAction.exitProcess] := by
  induction inputs with
  | nil => cases h
  | cons s rest ih =>
    by_cases hs : s = "exit"
    · simp [start_dns_control, hs]
    · have hmem : "exit" ∈ rest := by
        rcases List.mem_cons.mp h with h1 | h1
        · exact absurd h1.symm hs
        · exact h1
      simp [start_dns_control, hs, ih hmem]

/-- Witness for the amended claim C5 at a concrete input list. -/
theorem start_dns_stop_sequence_spec_witness :
    start_dns_control ["status", "exit"]
      = [LifeAction.setRunningFalse, LifeAction.saveCache, LifeAction.exitProcess] :=
  start_dns_stop_sequence_spec ["status", "exit"] (List.Mem.tail _ (List.Mem.head _))

/-- Claim C6 (code bug). The socket used for the upstream exchange
never receives a timeout (settimeout is called only on the listening
socket), so with no upstream reply the receive blocks forever instead
of returning after a bounded wait: the wait for an upstream reply in
make_request is unbounded. -/
theorem upstream_recv_unbounded_bug :
    sock_send_timeout = none ∧
    recvfrom sock_send_timeout none = RecvOutcome.blocksForever ∧
    recvfrom sock_rec_timeout none = RecvOutcome.timedOut :=
  ⟨rfl, rfl, rfl⟩

/-- Claim C7 counterexample. For an upstream reply with raw bytes [9]
and an empty decoded record list, make_request leaves the cache
unchanged and sends nothing at all to the client, refuting the claim
that the raw response bytes are still relayed: reading rr[0].ttl
raises IndexError, the blanket handler catches it, and the send (which
sits after the cache write inside the try block) never runs. -/
theorem make_request_empty_records_counterexample :
    make_request ([9], Except.ok ⟨[]⟩) 0 [] "a" "A" "client" = ([], []) ∧
    ([9], ("client" : Addr)) ∉ (make_request ([9], Except.ok ⟨[]⟩) 0 [] "a" "A" "client").2 :=
  ⟨rfl, by decide⟩

/-- Claim C7 (amended). An upstream reply whose decoded record list is
empty writes nothing into the cache and relays nothing to the client:
the IndexError from reading the first record aborts the whole handler
and the reply is dropped. -/
theorem make_request_empty_records_spec (raw : Bytes) (current_time : Nat) (c : Cache)
    (domain_name q_type : String) (address_request : Addr) :
    make_request (raw, Except.ok ⟨[]⟩) current_time c domain_name q_type address_request
      = (c, []) := by
  cases raw with
  | nil => rfl
  | cons b bs => rfl

/-- Claim C8 counterexample. Take a pass starting at time 3 over a
cache holding one entry expiring at 5 (fresh at the start), with the
single per-entry clock sample of the pass reading 7 (a time at or
after the start, as real samples are). The pass removes that entry,
refuting the claim that no entry fresh at the start of the pass is
removed by it: the source samples the clock per entry check, not once
per pass. -/
theorem sweep_removes_fresh_at_start_counterexample :
    search_expired_records_pass [("a", [("A", entryAt5)])] clockAt7 = Except.ok [("a", [])] ∧
    (3 : Nat) < entryAt5.timeEnd ∧
    (3 : Nat) ≤ clockAt7 0 ∧
    entryAt5.timeEnd ≤ clockAt7 0 ∧
    lookupEntry [("a", ([] : List (String × CacheEntry)))] "a" "A" = none :=
  ⟨rfl, by decide, by decide, by decide, rfl⟩

/-- Claim C8 (amended). For a pass over a well-formed cache whose
per-entry clock samples are monotone, the pass succeeds and: every
surviving entry was already present unchanged and its expiry is
strictly after the first clock sample of the pass (so no entry stale
at or before that first sample remains), and every entry whose expiry
is strictly after the last clock sample of the pass survives
unchanged. An entry fresh at the first sample but expired by the time
of its own check may be removed, since the clock is read per entry
rather than once per pass. -/
theorem search_expired_records_pass_spec (c : Cache) (now : Nat → Nat)
    (hnd : keysNodup c) (hmono : ∀ i j, i ≤ j → now i ≤ now j) :
    ∃ c2, search_expired_records_pass c now = Except.ok c2 ∧
      (∀ d q e, lookupEntry c2 d q = some e →
        lookupEntry c d q = some e ∧ now 0 < e.timeEnd) ∧
      (∀ d q e, lookupEntry c d q = some e →
        now ((entriesOf c).length - 1) < e.timeEnd → lookupEntry c2 d q = some e) := by
  have hksnd : (collectExpired c now).Nodup :=
    (entriesOf_pairs_nodup hnd).sublist (collectExpiredAux_sublist now (entriesOf c) 0)
  have hpres : ∀ k ∈ collectExpired c now, (lookupEntry c k.1 k.2).isSome := by
    intro k hk
    obtain ⟨j, e2, hget, _⟩ := mem_collectExpiredAux (entriesOf c) 0 hk
    have hmem : (k.1, k.2, e2) ∈ entriesOf c := List.get?_mem hget
    rw [lookupEntry_of_mem_entriesOf hnd hmem]
    rfl
  obtain ⟨c2, hrm, hchar⟩ := removeAll_spec (collectExpired c now) c hksnd hpres
  refine ⟨c2, hrm, ?_, ?_⟩
  · intro d q e h2
    rw [hchar d q] at h2
    by_cases hmem : (d, q) ∈ collectExpired c now
    · rw [if_pos hmem] at h2
      cases h2
    · rw [if_neg hmem] at h2
      refine ⟨h2, ?_⟩
      obtain ⟨j, hget⟩ := List.get?_of_mem (mem_entriesOf_of_lookup h2)
      by_cases hcond : e.timeEnd ≤ now j
      · exact absurd
          (collect_of_get (entriesOf c) 0 j (d, q, e) hget
            (by rw [Nat.zero_add]; exact hcond)) hmem
      · have h0j : now 0 ≤ now j := hmono 0 j (Nat.zero_le j)
        omega
  · intro d q e h2 hfresh
    have hnotmem : (d, q) ∉ collectExpired c now := by
      intro hmem
      obtain ⟨j, e2, hget, hle⟩ := mem_collectExpiredAux (entriesOf c) 0 hmem
      have hmem2 : (d, q, e2) ∈ entriesOf c := List.get?_mem hget
      have he2 : lookupEntry c d q = some e2 := lookupEntry_of_mem_entriesOf hnd hmem2
      rw [h2] at he2
      injection he2 with he2
      subst he2
      have hjlt : j < (entriesOf c).length := by
        by_contra hge
        rw [List.get?_eq_none.mpr (Nat.le_of_not_lt hge)] at hget
        cases hget
      have hle2 : now j ≤ now ((entriesOf c).length - 1) := hmono _ _ (by omega)
      rw [Nat.zero_add] at hle
      omega
    rw [hchar d q, if_neg hnotmem]
    exact h2

/-- Witness for the amended claim C8 at a concrete cache and clock. -/
theorem search_expired_records_pass_spec_witness :
    keysNodup cacheW ∧
    (∃ c2, search_expired_records_pass cacheW clockAt4 = Except.ok c2 ∧
      (∀ d q e, lookupEntry c2 d q = some e →
        lookupEntry cacheW d q = some e ∧ clockAt4 0 < e.timeEnd) ∧
      (∀ d q e, lookupEntry cacheW d q = some e →
        clockAt4 ((entriesOf cacheW).length - 1) < e.timeEnd → lookupEntry c2 d q = some e)) :=
  ⟨by decide,
    search_expired_records_pass_spec cacheW clockAt4 (by decide) (fun i j h => Nat.le.refl)⟩

/-- Claim C9 counterexample. Removing the key (a, A) from a cache that
holds it succeeds and leaves the inner dict empty; removing the same
key again raises KeyError instead of being a no-op, refuting the claim
that the second of two successive removes raises no error. -/
theorem delEntry_twice_counterexample :
    delEntry [("a", [("A", entryDel)])] "a" "A" = Except.ok [("a", [])] ∧
    delEntry [("a", ([] : List (String × CacheEntry)))] "a" "A"
      = Except.error PyErr.keyError :=
  ⟨rfl, rfl⟩

/-- Claim C9 (amended). Removal is the Python del statement: removing
a present entry succeeds and deletes it, and the immediately repeated
removal of the same key, now absent, raises KeyError, so remove is not
idempotent and the second call is not an error-free no-op. -/
theorem delEntry_remove_once_then_error (c : Cache) (domain_name q_type : String)
    (e : CacheEntry) (h : lookupEntry c domain_name q_type = some e) :
    ∃ c1, delEntry c domain_name q_type = Except.ok c1 ∧
      lookupEntry c1 domain_name q_type = none ∧
      delEntry c1 domain_name q_type = Except.error PyErr.keyError := by
  unfold lookupEntry at h
  cases hd : dictLookup domain_name c with
  | none => rw [hd] at h; simp at h
  | some inner =>
    rw [hd] at h
    simp only [Option.some_bind] at h
    refine ⟨dictReplace domain_name (dictRemoveKey q_type inner) c, ?_, ?_, ?_⟩
    · simp [delEntry, hd, h]
    · unfold lookupEntry
      rw [dictLookup_replace_self, hd]
      simp [dictLookup_removeKey_self]
    · have hlook : dictLookup domain_name
          (dictReplace domain_name (dictRemoveKey q_type inner) c)
          = some (dictRemoveKey q_type inner) := by
        rw [dictLookup_replace_self, hd]
        rfl
      simp [delEntry, hlook, dictLookup_removeKey_self]

/-- Witness for the amended claim C9 at a concrete cache. -/
theorem delEntry_remove_once_then_error_witness :
    ∃ c1, delEntry [("a", [("A", entryDel)])] "a" "A" = Except.ok c1 ∧
      lookupEntry c1 "a" "A" = none ∧
      delEntry c1 "a" "A" = Except.error PyErr.keyError :=
  delEntry_remove_once_then_error [("a", [("A", entryDel)])] "a" "A" entryDel rfl

/-- Claim C10 (confirmed). On a fresh cache hit, the response built by
prepare_dns_response reuses the request header, carries the question
unchanged, and has one answer per cached payload in order, every
answer labelled with the question qname and qtype and the single
stored ttl of the entry, whatever name or type the payloads came from
upstream. -/
theorem prepare_dns_response_replays (codec : WireCodec) (c : Cache) (data_request : Bytes)
    (domain_name q_type : String) (request : DNSRequest) (question : DNSQuestion)
    (entry : CacheEntry)
    (hparse : codec.parseRequest data_request = Except.ok request)
    (hq : request.questions.head? = some question)
    (hentry : lookupEntry c domain_name q_type = some entry) :
    ∃ resp, prepare_dns_response codec c data_request domain_name q_type = Except.ok resp ∧
      resp.header = request.header ∧
      resp.questions = [question] ∧
      resp.answers.map RRecord.rdata = entry.rdata ∧
      ∀ a ∈ resp.answers, a.rname = question.qname ∧ a.rtype = question.qtype ∧
        a.ttl = entry.ttl := by
  refine ⟨⟨request.header, [question],
    entry.rdata.map (fun rd => ⟨question.qname, question.qtype, rd, entry.ttl⟩)⟩,
    ?_, rfl, rfl, ?_, ?_⟩
  · simp [prepare_dns_response, hparse, hq, hentry]
  · rw [List.map_map]
    have hcomp : (RRecord.rdata ∘ fun rd =>
        ({ rname := question.qname, rtype := question.qtype,
           rdata := rd, ttl := entry.ttl } : RRecord)) = id := rfl
    rw [hcomp, List.map_id]
  · intro a ha
    obtain ⟨rd, _, rfl⟩ := List.mem_map.mp ha
    exact ⟨rfl, rfl, rfl⟩

/-- Witness for claim C10 at a concrete codec, cache and request. -/
theorem prepare_dns_response_replays_witness :
    ∃ resp, prepare_dns_response codecConst cacheHit [1] "w." "A" = Except.ok resp ∧
      resp.header = (7 : Nat) ∧
      resp.questions = [⟨"w.", "A"⟩] ∧
      resp.answers.map RRecord.rdata = entryTwoRecords.rdata ∧
      ∀ a ∈ resp.answers, a.rname = "w." ∧ a.rtype = "A" ∧ a.ttl = entryTwoRecords.ttl :=
  prepare_dns_response_replays codecConst cacheHit [1] "w." "A" ⟨7, [⟨"w.", "A"⟩]⟩
    ⟨"w.", "A"⟩ entryTwoRecords rfl rfl rfl
